import Mathlib

/-!
Verification of the go-universal/template rendering library.

The development shallowly embeds the library's path utilities
(`utils.go`), the data context (`context.go`), the built-in template
functions ("pipes", `pipes.go`), and the engine's `Load`/`Render`
control flow (`template.go`) into Lean.  Strings are modelled as lists
of characters (`Str`); Go's `path/filepath` lexical cleaning (an
external standard-library dependency of `normalizePath`) is modelled
faithfully by `goClean`/`goJoin`; the underlying `html/template`
execution engine (also external to the repository) is modelled by a
small template AST (`Node`) together with an executable interpreter
(`execNodes`) covering text chunks, field interpolation and the four
built-in pipe functions that the repository registers.
-/

set_option autoImplicit false

namespace GoTpl

/-- Strings are modelled as lists of characters. -/
abbrev Str := List Char

/-- Coerce a Lean string literal to the `Str` model. -/
def str (s : String) : Str := s.data

/-- Go `strings.TrimPrefix`: drop `p` from the front of `s` when it is a prefix. -/
def goTrimPre (s p : Str) : Str :=
  if p.isPrefixOf s then s.drop p.length else s

/-- Go `strings.TrimSuffix`: drop `suf` from the end of `s` when it is a suffix. -/
def goTrimSuf (s suf : Str) : Str :=
  if suf.isSuffixOf s then s.take (s.length - suf.length) else s

/-- Whether `sub` occurs as a contiguous substring of `s`. -/
def hasInfixB : Str → Str → Bool
  | [], sub => sub.isPrefixOf ([] : Str)
  | s@(_ :: t), sub => sub.isPrefixOf s || hasInfixB t sub

/-- Split a string on the slash separator (semantics of slash-separated
path elements as seen by Go's `filepath.Clean` on unix). -/
def splitSegs : Str → List Str
  | [] => [[]]
  | c :: rest =>
    match splitSegs rest with
    | [] => [[c]]
    | h :: t => if c = '/' then [] :: h :: t else (c :: h) :: t

/-- Join segments with the separator character `sep`. -/
def joinWith (sep : Char) : List Str → Str
  | [] => []
  | [s] => s
  | s :: t :: rest => s ++ sep :: joinWith sep (t :: rest)

/-- Join path segments with slashes. -/
def joinSegs (segs : List Str) : Str := joinWith '/' segs

/-- Whether a path begins with a slash (is absolute). -/
def isRooted : Str → Bool
  | [] => false
  | c :: _ => c = '/'

/-- One step of Go's `filepath.Clean` element processing: empty and `.`
elements are dropped, `..` pops the previous element (or is kept at the
start of a relative path, or dropped at the root of an absolute path),
and every other element is appended. -/
def cleanStep (rooted : Bool) (acc : List Str) (seg : Str) : List Str :=
  if seg = [] ∨ seg = ['.'] then acc
  else if seg = ['.', '.'] then
    match acc.getLast? with
    | some l => if l = ['.', '.'] then acc ++ [seg] else acc.dropLast
    | none => if rooted then [] else [seg]
  else acc ++ [seg]

/-- Process all path elements as Go's `filepath.Clean` does. -/
def cleanSegs (rooted : Bool) (segs : List Str) : List Str :=
  segs.foldl (cleanStep rooted) []

/-- Model of Go `filepath.Clean` (on a unix separator): lexically
normalize a path; the empty path cleans to `.`. -/
def goClean (s : Str) : Str :=
  let rooted := isRooted s
  let out := cleanSegs rooted (splitSegs s)
  if rooted then '/' :: joinSegs out
  else if out = [] then ['.'] else joinSegs out

/-- Model of Go `filepath.Join`: join the non-empty components with a
slash and clean the result; all-empty input yields the empty path. -/
def goJoin (paths : List Str) : Str :=
  let ne := paths.filter (fun p => !p.isEmpty)
  if ne.isEmpty then [] else goClean (joinSegs ne)

/-- `normalizePath` from utils.go: join and clean paths, then convert to
slashes (identity on unix). -/
def normalizePath (paths : List Str) : Str :=
  goClean (goJoin paths)

/-- `toName` from utils.go: convert a file path to a name by removing
the root and extension. -/
def toName (path root ext : Str) : Str :=
  if path = [] then []
  else normalizePath [goTrimSuf (goTrimPre path root) ext]

/-- `toPath` from utils.go: convert a name to a file path by appending
the root and extension. -/
def toPath (name root ext : Str) : Str :=
  if name = [] then []
  else
    let n := goTrimSuf (goTrimPre name root) ext
    normalizePath [root, n ++ ext]

/-- `toKey` from utils.go: concatenate the non-empty view names with a
colon separator (the string-builder loop). -/
def toKey (views : List Str) : Str :=
  views.foldl
    (fun res v =>
      if v = [] then res
      else if res = [] then v
      else res ++ ':' :: v)
    []

/-- The set of characters escaped by Go `regexp.QuoteMeta`. -/
def rxSpecial : Str := str "\\.+*?()|[]\x7b\x7d^$"

/-- Model of Go `regexp.QuoteMeta`. -/
def quoteMeta : Str → Str
  | [] => []
  | c :: rest =>
    if c ∈ rxSpecial then '\\' :: c :: quoteMeta rest else c :: quoteMeta rest

/-- `extPattern` from utils.go: the textual regular-expression pattern
matching paths with a given extension (optionally anchored to a path
prefix). -/
def extPattern (path ext : Str) : Str :=
  if path = [] then str ".*" ++ quoteMeta ext
  else str "^" ++ quoteMeta path ++ str ".*" ++ quoteMeta ext

/-- Matching semantics of the compiled `extPattern path ext` regular
expression (`regexp.MatchString`, unanchored search): when `path` is
empty the pattern `.*E` matches iff the quoted extension occurs
somewhere in the file path; otherwise `^P.*E` matches iff the file path
starts with `path` and the extension occurs somewhere after it. -/
def rxMatch (path ext file : Str) : Bool :=
  if path = [] then hasInfixB file ext
  else path.isPrefixOf file && hasInfixB (file.drop path.length) ext

/-- A plain path element: non-empty, not a dot element, and free of
the separator.  `filepath.Clean` leaves a path assembled from plain
elements untouched. -/
def simpleSeg (s : Str) : Prop :=
  s ≠ [] ∧ s ≠ ['.'] ∧ s ≠ ['.', '.'] ∧ '/' ∉ s

instance (s : Str) : Decidable (simpleSeg s) := by
  unfold simpleSeg; infer_instance

/-- Append a suffix to the last element of a segment list. -/
def extendLast (ext : Str) : List Str → List Str
  | [] => []
  | [s] => [s ++ ext]
  | s :: t :: rest => s :: extendLast ext (t :: rest)

/-! ### Data values and the Context type (context.go) -/

/-- Dynamic data values routed through templates (the fragment of Go's
`any` that the claims exercise: nil, strings, and string-keyed maps). -/
inductive Val where
  | vnil : Val
  | vstr : Str → Val
  | vmap : List (Str × Val) → Val

/-- Insert into an association list with Go-map semantics (replace an
existing key, otherwise append). -/
def setA {α : Type} : List (Str × α) → Str → α → List (Str × α)
  | [], k, v => [(k, v)]
  | (k0, v0) :: rest, k, v =>
    if k0 = k then (k, v) :: rest else (k0, v0) :: setA rest k v

/-- Look up a key in an association list. -/
def getA {α : Type} : List (Str × α) → Str → Option α
  | [], _ => none
  | (k0, v0) :: rest, k => if k0 = k then some v0 else getA rest k

/-- `Context` from context.go: a collection of key-value pairs for
template data. -/
structure Context where
  data : List (Str × Val)

/-- `Ctx()` from context.go: a new empty Context. -/
def Ctx : Context := ⟨[]⟩

/-- `Context.Add` from context.go: insert a key-value pair; an empty
key is ignored. -/
def Context.add (ctx : Context) (key : Str) (value : Val) : Context :=
  if key = [] then ctx else ⟨setA ctx.data key value⟩

/-- The dynamic argument passed to `Render`/`underlyingValue` in Go: a
`Context` (by value or pointer, which behave alike) or a raw value. -/
inductive Arg where
  | actx : Context → Arg
  | raw : Val → Arg

/-- `underlyingValue` from utils.go: extract the underlying data from a
Context argument, passing anything else through. -/
def underlyingValue : Arg → Val
  | .actx c => .vmap c.data
  | .raw v => v

/-! ### Templates and the built-in pipes (pipes.go)

Parsing and execution of template text belong to Go's external
`html/template` package, not to this repository.  Parsed template
bodies are therefore modelled as a small AST covering the constructs
the specification exercises: literal text, field interpolation, and
calls to the built-in `view`, `include` and `require` functions. -/

inductive Node where
  | text : Str → Node
  | field : Str → Node
  | viewCall : Node
  | includeCall : Str → Node
  | requireCall : Str → Node
deriving DecidableEq

/-- A parsed template body. -/
abbrev Template := List Node

/-- A set of named templates sharing one function namespace (the model
of a `*template.Template` together with its associated templates). -/
abbrev TplSet := List (Str × Template)

/-- `Template.Lookup`: find the associated template with a given name. -/
def lookupTpl (ts : TplSet) (name : Str) : Option Template :=
  getA ts name

/-- HTML-escape one character as Go's `template.HTMLEscapeString` does. -/
def escChar (c : Char) : Str :=
  if c = '<' then str "&lt;"
  else if c = '>' then str "&gt;"
  else if c = '&' then str "&amp;"
  else if c = '\'' then str "&#39;"
  else if c = '"' then str "&#34;"
  else [c]

/-- HTML-escape a string (the escaping `html/template` applies to
interpolated plain-text values in an HTML text context). -/
def escapeHTML (s : Str) : Str :=
  s.foldr (fun c acc => escChar c ++ acc) []

/-- The closure registered by `viewPipe` in pipes.go: return the bound
child-view bytes as trusted markup, or error when no buffer was bound
(the `data == nil` case). -/
def viewFn (bound : Option Str) : Except Str Str :=
  match bound with
  | none => .error (str "layout template called without view")
  | some d => .ok d

/-- The closure registered by `existsPipe` in pipes.go: whether a
template with the given name exists in the set. -/
def existsFn (ts : TplSet) (name : Str) : Bool :=
  (lookupTpl ts name).isSome

/-- Execute a template body.  `bound` is the child-view buffer bound by
`viewPipe` (none outside a layout-wrapped render); `fuel` bounds the
`include`/`require` nesting depth (Go imposes no bound and would crash
on unbounded recursion; no claim depends on deeply nested inclusion).
A `field` node interpolates a string value from a map datum,
HTML-escaped; `include` of a missing name renders nothing, `require`
of a missing name errors (pipes.go). -/
def execNodes (ts : TplSet) : Nat → Option Str → Val → List Node → Except Str Str
  | 0, _, _, _ => .error (str "template recursion limit exceeded")
  | _ + 1, _, _, [] => .ok []
  | fuel + 1, bound, data, n :: rest =>
    let head : Except Str Str :=
      match n with
      | .text s => .ok s
      | .field k =>
        match data with
        | .vmap m =>
          match getA m k with
          | some (.vstr s) => .ok (escapeHTML s)
          | some _ => .error (str "unsupported field value " ++ k)
          | none => .error (str "map has no entry for key " ++ k)
        | _ => .error (str "can't evaluate field " ++ k)
      | .viewCall => viewFn bound
      | .includeCall name =>
        match lookupTpl ts name with
        | none => .ok []
        | some t => execNodes ts fuel bound .vnil t
      | .requireCall name =>
        match lookupTpl ts name with
        | none => .error (str "template " ++ name ++ str " does not exist")
        | some t => execNodes ts fuel bound .vnil t
    match head with
    | .error m => .error m
    | .ok h =>
      match execNodes ts fuel bound data rest with
      | .error m => .error m
      | .ok t => .ok (h ++ t)

/-- The closure registered by `includePipe` in pipes.go: include and
execute a template with the given name; a missing name yields empty
output with no error.  A data argument, when supplied, is unwrapped
with `underlyingValue`; with no argument the template runs on nil. -/
def includeFn (ts : TplSet) (fuel : Nat) (bound : Option Str)
    (name : Str) (args : List Arg) : Except Str Str :=
  match lookupTpl ts name with
  | none => .ok []
  | some t => execNodes ts fuel bound (underlyingValue (args.headD (.raw .vnil))) t

/-- The closure registered by `requirePipe` in pipes.go: include and
execute a template with the given name; a missing name is an error. -/
def requireFn (ts : TplSet) (fuel : Nat) (bound : Option Str)
    (name : Str) (args : List Arg) : Except Str Str :=
  match lookupTpl ts name with
  | none => .error (str "template " ++ name ++ str " does not exist")
  | some t => execNodes ts fuel bound (underlyingValue (args.headD (.raw .vnil))) t

/-! ### The engine (template.go) -/

/-- The configuration fragment of `option` (option.go) that the engine
logic reads: delimiters and the custom pipe registry do not influence
any claim and are omitted. -/
structure EngineOpt where
  root : Str
  partials : Str
  extension : Str
  Dev : Bool
  Cache : Bool

/-- Outcome of `fs.ReadFile` combined with the subsequent
`template.Parse` of the returned bytes (parsing is delegated to the
external engine, so a file's content is modelled directly by its parse
outcome): the file exists and parses (or fails to parse), does not
exist (`os.IsNotExist`), or fails with another I/O error. -/
inductive ReadResult where
  | content : Except Str Template → ReadResult
  | notExist : ReadResult
  | ioError : Str → ReadResult

/-- The external `fs.FlexibleFS` collaborator: file enumeration by
root and pattern, and file reading. -/
structure FlexFS where
  lookupFiles : Str → Str → Except Str (List Str)
  readFile : Str → ReadResult

/-- The engine state (`tplEngine`): configuration, filesystem, base
template set (global partials), the cache map from composite keys to
assembled template sets, and the compiled partials matcher, modelled by
the `(partials, extension)` pair its `extPattern` was built from
(`regexp.Compile` of a `QuoteMeta`-escaped pattern cannot fail). -/
structure Engine where
  opt : EngineOpt
  fsrc : FlexFS
  base : TplSet
  templates : List (Str × TplSet)
  partialRx : Option (Str × Str)

/-- The error text carried by a non-`os.IsNotExist`-aware read failure
(Load propagates `ReadFile`'s own error for a missing file). -/
def notExistMsg (file : Str) : Str :=
  str "open " ++ file ++ str ": no such file or directory"

/-- The partial-loading loop of `Load`: for every enumerated file that
matches the partials matcher, read it and parse it into the base set
under the `@partials/`-prefixed name; the first failure stops the loop
and is reported, keeping the partially rebuilt base. -/
def loadPartialFiles (fsrc : FlexFS) (prt ext : Str) :
    List Str → TplSet → TplSet × Option Str
  | [], acc => (acc, none)
  | file :: rest, acc =>
    if rxMatch prt ext file then
      match fsrc.readFile file with
      | .content (.ok t) =>
        loadPartialFiles fsrc prt ext rest
          (setA acc (str "@partials/" ++ toName file prt ext) t)
      | .content (.error m) => (acc, some m)
      | .notExist => (acc, some (notExistMsg file))
      | .ioError m => (acc, some m)
    else loadPartialFiles fsrc prt ext rest acc

/-- `Load` from template.go: reset the cache map and the base template,
compile the partials matcher when a partials directory is configured,
enumerate the template files under the root, and parse every partial
file into the base set; any failure is returned with the state already
reset. -/
def load (e : Engine) : Engine × Option Str :=
  let e1 : Engine :=
    { e with
      templates := []
      base := []
      partialRx :=
        if e.opt.partials ≠ [] then some (e.opt.partials, e.opt.extension)
        else e.partialRx }
  match e1.fsrc.lookupFiles e1.opt.root (extPattern [] e1.opt.extension) with
  | .error m => (e1, some m)
  | .ok files =>
    if e1.opt.partials ≠ [] then
      match loadPartialFiles e1.fsrc e1.opt.partials e1.opt.extension files [] with
      | (b, res) => ({ e1 with base := b }, res)
    else (e1, none)

/-- Read one file and parse it into the set under the given template
name; a missing file produces the caller-supplied descriptive message,
other read and parse errors are propagated. -/
def parseInto (fsrc : FlexFS) (ts : TplSet) (tname file notFoundMsg : Str) :
    Except Str TplSet :=
  match fsrc.readFile file with
  | .notExist => .error notFoundMsg
  | .ioError m => .error m
  | .content (.error m) => .error m
  | .content (.ok t) => .ok (setA ts tname t)

/-- Parse each per-call partial file into the set under its id. -/
def addCallPartials (fsrc : FlexFS) : List (Str × Str) → TplSet → Except Str TplSet
  | [], ts => .ok ts
  | (p, pid) :: rest, ts =>
    match parseInto fsrc ts pid p (p ++ str " partial template not found") with
    | .error m => .error m
    | .ok ts1 => addCallPartials fsrc rest ts1

/-- The cache-miss assembly of `Render`: clone the base set (cloning a
never-executed base cannot fail), parse the view file under
`view::<id>`, the layout file (if any) under `layout::<id>`, and each
per-call partial under its id; a missing view/layout/partial yields the
corresponding `... template not found` message. -/
def buildSet (e : Engine) (view viewId layout layoutId : Str)
    (prts : List (Str × Str)) : Except Str TplSet :=
  match parseInto e.fsrc e.base (str "view::" ++ viewId) view
      (view ++ str " template not found") with
  | .error m => .error m
  | .ok ts1 =>
    if layout = [] then addCallPartials e.fsrc prts ts1
    else
      match parseInto e.fsrc ts1 (str "layout::" ++ layoutId) layout
          (layout ++ str " layout template not found") with
      | .error m => .error m
      | .ok ts2 => addCallPartials e.fsrc prts ts2

/-- Resolve and normalize the view argument of `Render` to its path and
id. -/
def resolveView (opt : EngineOpt) (name : Str) : Str × Str :=
  let view := toPath name opt.root opt.extension
  (view, toName view opt.root opt.extension)

/-- Resolve and normalize the layout-and-partials argument list of
`Render`: index 0 is the layout (possibly empty), the remaining
non-empty entries are per-call partials, each resolved to a
`(path, id)` pair in order. -/
def resolveLayouts (opt : EngineOpt) (layouts : List Str) :
    Str × Str × List (Str × Str) :=
  match layouts with
  | [] => ([], [], [])
  | l0 :: rest =>
    let layout := toPath l0 opt.root opt.extension
    let layoutId := toName layout opt.root opt.extension
    let prts := (rest.filter (fun l => !l.isEmpty)).map
      (fun l =>
        let p := toPath l opt.root opt.extension
        (p, toName p opt.root opt.extension))
    (layout, layoutId, prts)

/-- The composite cache key of a `Render` request:
`toKey(viewId, layoutId, partialIds...)`. -/
def renderKey (opt : EngineOpt) (name : Str) (layouts : List Str) : Str :=
  let rv := resolveView opt name
  let rl := resolveLayouts opt layouts
  toKey (rv.2 :: rl.2.1 :: (rl.2.2).map (fun pr => pr.2))

/-- The assembly a `Render` request performs on a cache miss, with its
arguments resolved. -/
def assembleFor (e : Engine) (name : Str) (layouts : List Str) :
    Except Str TplSet :=
  let rv := resolveView e.opt name
  let rl := resolveLayouts e.opt layouts
  buildSet e rv.1 rv.2 rl.1 rl.2.1 rl.2.2

/-- The template set a `Render` request executes: the cached set on a
hit, otherwise the freshly assembled one. -/
def setFor (e : Engine) (name : Str) (layouts : List Str) :
    Except Str TplSet :=
  match getA e.templates (renderKey e.opt name layouts) with
  | some t => .ok t
  | none => assembleFor e name layouts

/-- Execution fuel handed to the interpreter for one render. -/
def execFuel : Nat := 1000

/-- `ExecuteTemplate`: execute the associated template with the given
name, erroring when no such template exists in the set. -/
def execNamed (ts : TplSet) (tname : Str) (bound : Option Str) (data : Val) :
    Except Str Str :=
  match lookupTpl ts tname with
  | none => .error (str "no template " ++ tname)
  | some t => execNodes ts execFuel bound data t

/-- The execution tail of `Render`: the built-in pipes are
re-registered with no view buffer bound; without a layout the view
template is executed directly against the unwrapped data; with a
layout the view template is first executed into a buffer, the `view`
function is rebound to the buffer's bytes, and the layout template is
executed against the same data.  The code rebinds with
`viewPipe(tpl, buf.Bytes())`, and a `bytes.Buffer` to which nothing was
written yields nil from `Bytes()`, so an empty child view leaves the
binding nil and a `view` call in the layout errors exactly as an
unbound one does. -/
def runTpl (tpl : TplSet) (viewId layout layoutId : Str) (data : Arg) :
    Except Str Str :=
  if layout = [] then
    execNamed tpl (str "view::" ++ viewId) none (underlyingValue data)
  else
    match execNamed tpl (str "view::" ++ viewId) none (underlyingValue data) with
    | .error m => .error m
    | .ok buf =>
      execNamed tpl (str "layout::" ++ layoutId)
        (if buf = [] then none else some buf) (underlyingValue data)

/-- The cache-resolution step of `Render`: reuse the cached set for the
key, otherwise assemble one; on assembly success store it in the cache
exactly when caching is enabled and development mode is off (note the
store happens before execution), then execute. -/
def renderExec (e : Engine) (view viewId layout layoutId : Str)
    (prts : List (Str × Str)) (key : Str) (data : Arg) :
    Engine × Except Str Str :=
  match getA e.templates key with
  | some tpl => (e, runTpl tpl viewId layout layoutId data)
  | none =>
    match buildSet e view viewId layout layoutId prts with
    | .error m => (e, .error m)
    | .ok tpl =>
      let e1 :=
        if !e.opt.Dev && e.opt.Cache then
          { e with templates := setA e.templates key tpl }
        else e
      (e1, runTpl tpl viewId layout layoutId data)

/-- The body of `Render` after the development-mode reload: resolve the
view, layout and partials, and reject a request whose view path, layout
path, or any per-call partial path matches the partials matcher (the
per-call-partial rejection interpolates the layout path into its
message, exactly as the code does), then resolve the cache and
execute. -/
def renderCore (e : Engine) (name : Str) (data : Arg) (layouts : List Str) :
    Engine × Except Str Str :=
  let rv := resolveView e.opt name
  let rl := resolveLayouts e.opt layouts
  let key := renderKey e.opt name layouts
  match e.partialRx with
  | some (p, x) =>
    if rxMatch p x rv.1 then
      (e, .error (rv.1 ++ str " partial cannot render directly"))
    else if !rl.1.isEmpty && rxMatch p x rl.1 then
      (e, .error (rl.1 ++ str " partial cannot render directly"))
    else if (rl.2.2).any (fun pr => rxMatch p x pr.1) then
      (e, .error (rl.1 ++ str " partial already loaded globally"))
    else renderExec e rv.1 rv.2 rl.1 rl.2.1 rl.2.2 key data
  | none => renderExec e rv.1 rv.2 rl.1 rl.2.1 rl.2.2 key data

/-- `Render` from template.go: reload first in development mode
(propagating a reload failure), then resolve, check, assemble/cache and
execute.  The returned engine carries the possibly extended cache; the
returned value is the byte stream written to the sink on success. -/
def render (e : Engine) (name : Str) (data : Arg) (layouts : List Str) :
    Engine × Except Str Str :=
  if e.opt.Dev then
    match load e with
    | (e1, some m) => (e1, .error m)
    | (e1, none) => renderCore e1 name data layouts
  else renderCore e name data layouts

/-! ### Concrete engines used by end-to-end scenarios -/

/-- Files for the end-to-end layout scenario: the directory `views` is
the filesystem root, holding `pages/home.tpl` whose parsed body
interpolates the `Title` field, and `layout.tpl` whose parsed body
wraps the child view in an html element. -/
def fsC1 : FlexFS :=
  { lookupFiles := fun _ _ => .ok [str "views/pages/home.tpl", str "views/layout.tpl"]
    readFile := fun p =>
      if p = str "views/pages/home.tpl" then .content (.ok [Node.field (str "Title")])
      else if p = str "views/layout.tpl" then
        .content (.ok [Node.text (str "<html>"), Node.viewCall, Node.text (str "</html>")])
      else .notExist }

/-- Engine for the layout scenario: root `views/`, no partials
directory, defaults otherwise. -/
def engC1 : Engine :=
  { opt := { root := str "views/", partials := [], extension := str ".tpl",
             Dev := false, Cache := false }
    fsrc := fsC1, base := [], templates := [], partialRx := none }

/-- A filesystem whose only template `v.tpl` assembles fine but fails
at execution time (it requires a template that does not exist). -/
def fsC2 : FlexFS :=
  { lookupFiles := fun _ _ => .ok [str "v.tpl"]
    readFile := fun p =>
      if p = str "v.tpl" then .content (.ok [Node.requireCall (str "missing")])
      else .notExist }

/-- Engine over `fsC2` with caching enabled and development mode off. -/
def engC2 : Engine :=
  { opt := { root := str ".", partials := [], extension := str ".tpl",
             Dev := false, Cache := true }
    fsrc := fsC2, base := [], templates := [], partialRx := none }

/-- `engC2` as it stands after its first render of `v`: the assembled
set for key `v` is cached. -/
def engC2b : Engine :=
  { engC2 with
    templates := [(str "v", [(str "view::v", [Node.requireCall (str "missing")])])] }

/-- A filesystem on which every read reports a missing file and every
enumeration is empty (all template files deleted). -/
def fsNone : FlexFS :=
  { lookupFiles := fun _ _ => .ok []
    readFile := fun _ => .notExist }

/-- A filesystem whose only template `v.tpl` invokes the child-view
helper. -/
def fsC6 : FlexFS :=
  { lookupFiles := fun _ _ => .ok [str "v.tpl"]
    readFile := fun p =>
      if p = str "v.tpl" then .content (.ok [Node.viewCall]) else .notExist }

/-- Engine over `fsC6` with default root and no partials. -/
def engC6 : Engine :=
  { opt := { root := str ".", partials := [], extension := str ".tpl",
             Dev := false, Cache := false }
    fsrc := fsC6, base := [], templates := [], partialRx := none }

/-- Engine with a configured and compiled partials matcher
(`views/partials/` under root `views/`). -/
def engC9 : Engine :=
  { opt := { root := str "views/", partials := str "views/partials/",
             extension := str ".tpl", Dev := false, Cache := false }
    fsrc := fsC1, base := [], templates := [],
    partialRx := some (str "views/partials/", str ".tpl") }

/-- The template set assembled for the end-to-end layout scenario. -/
def tsC1 : TplSet :=
  [(str "view::pages/home", [Node.field (str "Title")]),
   (str "layout::layout",
     [Node.text (str "<html>"), Node.viewCall, Node.text (str "</html>")])]

/-- The data of the end-to-end layout scenario:
`Ctx().Add("Title","Hi")`. -/
def dataC1 : Arg := .actx (Ctx.add (str "Title") (.vstr (str "Hi")))

/-- A configuration with default root and extension, for key-collision
scenarios. -/
def optC10 : EngineOpt :=
  { root := str ".", partials := [], extension := str ".tpl",
    Dev := false, Cache := true }

/-! ### Helper lemmas about `toKey` -/

/-- The string-builder loop of `toKey`, run from a non-empty
accumulator, joins the accumulator with the remaining non-empty
entries. -/
theorem toKey_go (l : List Str) : ∀ res : Str, res ≠ [] →
    l.foldl
      (fun res v => if v = [] then res else if res = [] then v else res ++ ':' :: v)
      res
      = joinWith ':' (res :: l.filter (fun v => !v.isEmpty)) := by
  induction l with
  | nil => intro res _; simp [joinWith]
  | cons v t ih =>
    intro res hres
    by_cases hv : v = []
    · subst hv
      simpa [joinWith] using ih res hres
    · have hres2 : res ++ ':' :: v ≠ [] := by simp
      rw [List.foldl_cons, if_neg hv, if_neg hres, ih _ hres2]
      have hvf : (v :: t.filter (fun v => !v.isEmpty))
          = (v :: t).filter (fun v => !v.isEmpty) := by
        simp [List.filter_cons, hv]
      rw [← hvf]
      cases hf : t.filter (fun v => !v.isEmpty) with
      | nil => simp [joinWith]
      | cons f fs => simp [joinWith, List.append_assoc]

/-- `toKey` concatenates exactly the non-empty entries, joined by a
colon. -/
theorem toKey_eq_join (l : List Str) :
    toKey l = joinWith ':' (l.filter (fun v => !v.isEmpty)) := by
  induction l with
  | nil => rfl
  | cons v t ih =>
    by_cases hv : v = []
    · subst hv
      simpa [toKey, List.filter_cons] using ih
    · unfold toKey
      rw [List.foldl_cons]
      have h0 : (if v = [] then ([] : Str)
          else if ([] : Str) = [] then v else [] ++ ':' :: v) = v := by
        simp [hv]
      rw [h0, toKey_go t v hv]
      simp [List.filter_cons, hv]

/-- Two colon-free strings followed by a colon each determine each
other: equality of the concatenations forces equality of the heads. -/
theorem colon_head_eq : ∀ (a b x y : Str), ':' ∉ a → ':' ∉ b →
    a ++ ':' :: x = b ++ ':' :: y → a = b := by
  intro a
  induction a with
  | nil =>
    intro b x y _ hb h
    cases b with
    | nil => rfl
    | cons d bt =>
      simp only [List.nil_append, List.cons_append, List.cons.injEq] at h
      exact absurd (by rw [← h.1]; exact List.mem_cons_self _ _) hb
  | cons c at_ ih =>
    intro b x y ha hb h
    cases b with
    | nil =>
      simp only [List.cons_append, List.nil_append, List.cons.injEq] at h
      exact absurd (by rw [h.1]; exact List.mem_cons_self _ _) ha
    | cons d bt =>
      simp only [List.cons_append, List.cons.injEq] at h
      have : at_ = bt :=
        ih bt x y (fun hm => ha (List.mem_cons_of_mem c hm))
          (fun hm => hb (List.mem_cons_of_mem d hm)) h.2
      rw [h.1, this]

/-! ### Claims -/

/-- C5: `toKey` applied to an ordered list of identifiers returns the
concatenation of the non-empty entries joined by the separator `:`; it
is order-sensitive (`toKey [a,b,c] ≠ toKey [b,a,c]` whenever `a ≠ b`,
for separator-free non-empty identifiers), and empty entries contribute
neither text nor a separator, so `toKey [x, "", ""] = x`. -/
theorem claim_c5 :
    (∀ l : List Str, toKey l = joinWith ':' (l.filter (fun v => !v.isEmpty))) ∧
    (∀ a b c : Str, a ≠ [] → b ≠ [] → ':' ∉ a → ':' ∉ b → a ≠ b →
      toKey [a, b, c] ≠ toKey [b, a, c]) ∧
    (∀ x : Str, toKey [x, [], []] = x) := by
  refine ⟨toKey_eq_join, ?_, ?_⟩
  · intro a b c ha hb hca hcb hab
    have key3 : ∀ u v : Str, u ≠ [] → v ≠ [] →
        toKey [u, v, c] = u ++ ':' :: (v ++ if c = [] then [] else ':' :: c) := by
      intro u v hu hv
      have huv : u ++ ':' :: v ≠ [] := by simp
      by_cases hc : c = []
      · subst hc; simp [toKey, hu, hv]
      · simp [toKey, hu, hv, hc, huv, List.append_assoc]
    intro h
    rw [key3 a b ha hb, key3 b a hb ha] at h
    exact hab (colon_head_eq a b _ _ hca hcb h)
  · intro x
    by_cases hx : x = [] <;> simp [toKey, hx]

/-- Witness for C5 at concrete identifiers. -/
theorem claim_c5_witness :
    toKey [str "a", str "b", str "c"] ≠ toKey [str "b", str "a", str "c"] ∧
    toKey [str "x", [], []] = str "x" :=
  ⟨claim_c5.2.1 (str "a") (str "b") (str "c") (by decide) (by decide)
      (by decide) (by decide) (by decide),
    claim_c5.2.2 (str "x")⟩

/-- C10: `toKey` is not injective when identifiers may contain the
separator character: the distinct lists `["a:b"]` and `["a","b"]`
receive the same key, so two different (view, layout, partials)
combinations whose ids contain `:` map to one cache entry (shown also
through `renderKey` on a default configuration: view `a:b` with no
layout collides with view `a` under layout `b`). -/
theorem claim_c10 :
    toKey [str "a:b"] = toKey [str "a", str "b"] ∧
    [str "a:b"] ≠ [str "a", str "b"] ∧
    renderKey optC10 (str "a:b") [] = renderKey optC10 (str "a") [str "b"] ∧
    (str "a:b", ([] : List Str)) ≠ (str "a", [str "b"]) := by
  refine ⟨by decide, by decide, by decide, by decide⟩

/-- C7: the `include` function, called with a name not registered in
the current template set, returns empty output and no error; the
`require` function, called with such a name, returns an error. -/
theorem claim_c7 : ∀ (ts : TplSet) (fuel : Nat) (bound : Option Str)
    (name : Str) (args : List Arg), lookupTpl ts name = none →
    includeFn ts fuel bound name args = .ok [] ∧
    requireFn ts fuel bound name args
      = .error (str "template " ++ name ++ str " does not exist") := by
  intro ts fuel bound name args h
  constructor <;> simp [includeFn, requireFn, h]

/-- Witness for C7 on an empty template set and the name `missing`. -/
theorem claim_c7_witness :
    includeFn [] 5 none (str "missing") [] = .ok [] ∧
    requireFn [] 5 none (str "missing") []
      = .error (str "template missing does not exist") :=
  claim_c7 [] 5 none (str "missing") [] rfl

/-- Looking up the key just stored by an association-list insert
returns the inserted value. -/
theorem getA_setA {α : Type} (l : List (Str × α)) (k : Str) (v : α) :
    getA (setA l k v) k = some v := by
  induction l with
  | nil => simp [setA, getA]
  | cons p rest ih =>
    obtain ⟨k0, v0⟩ := p
    by_cases h : k0 = k
    · simp [setA, getA, h]
    · simp [setA, getA, h, ih]

/-- Every `Load` leaves the cache map empty, on failures included. -/
theorem load_templates (e : Engine) : (load e).1.templates = [] := by
  unfold load
  dsimp only
  split
  · rfl
  · split
    · rfl
    · rfl

/-- `Load` never changes the configuration. -/
theorem load_opt (e : Engine) : (load e).1.opt = e.opt := by
  unfold load
  dsimp only
  split
  · rfl
  · split
    · rfl
    · rfl

/-- After any `Load` with a configured partials directory, the partials
matcher is the compiled pattern for that directory and extension. -/
theorem load_partialRx (e : Engine) (h : e.opt.partials ≠ []) :
    (load e).1.partialRx = some (e.opt.partials, e.opt.extension) := by
  unfold load
  dsimp only
  split
  · simp [h]
  · split
    · simp [h]
    · simp [h]

/-- C8: every call to `Load` first discards and rebuilds both the base
template and the cache map — the result never depends on the previous
base or cache (an idempotent rebuild, never additive) — so a `Load`
that subsequently fails returns the error while leaving the in-memory
cache already cleared. -/
theorem claim_c8 : ∀ (e : Engine) (b : TplSet) (ts : List (Str × TplSet)),
    (load e).1.templates = [] ∧
    load { e with base := b, templates := ts } = load e := by
  intro e b ts
  exact ⟨load_templates e, rfl⟩

/-- C1: for a layout-wrapped render, `Render` first executes the view
template (`view::<id>`) against the data into an in-memory buffer, then
rebinds the `view` function to that buffer's bytes — nil for an empty
buffer, in which case a `view` call in the layout errors like an
unbound one — and executes the layout template (`layout::<id>`)
against the same data into the sink (first conjunct, over every
template set and buffer); concretely, with `views/pages/home.tpl`
interpolating `Title` and `views/layout.tpl` wrapping the child view
in an html element,
`Render(sink, "pages/home", Ctx().Add("Title","Hi"), "layout")` writes
exactly `<html>Hi</html>` (second conjunct). -/
theorem claim_c1 :
    (∀ (tpl : TplSet) (viewId layout layoutId : Str) (data : Arg) (buf : Str),
      layout ≠ [] →
      execNamed tpl (str "view::" ++ viewId) none (underlyingValue data) = .ok buf →
      runTpl tpl viewId layout layoutId data
        = execNamed tpl (str "layout::" ++ layoutId)
            (if buf = [] then none else some buf) (underlyingValue data)) ∧
    (render engC1 (str "pages/home") dataC1 [str "layout"]).2
      = .ok (str "<html>Hi</html>") := by
  constructor
  · intro tpl viewId layout layoutId data buf hlay hbuf
    simp [runTpl, hlay, hbuf]
  · rfl

/-- Witness for C1's quantified conjunct: the concrete template set of
the scenario executes its view to the non-empty buffer `Hi` and hands
that buffer to the layout execution. -/
theorem claim_c1_witness :
    runTpl tsC1 (str "pages/home") (str "views/layout.tpl") (str "layout") dataC1
      = execNamed tsC1 (str "layout::layout") (some (str "Hi"))
          (underlyingValue dataC1) :=
  claim_c1.1 tsC1 (str "pages/home") (str "views/layout.tpl") (str "layout")
    dataC1 (str "Hi") (by decide) rfl

/-- C2 as stated is false on the code: `Render` stores the assembled
set in the cache *before* executing it, so a render that fails during
execution (after successful assembly) has cached the set.  Concretely:
`v.tpl` requires a missing template, the render errors, and the cache
afterwards holds the assembled set under the composite key `v`. -/
theorem claim_c2_counterexample :
    (render engC2 (str "v") (.raw .vnil) []).2
      = .error (str "template missing does not exist") ∧
    getA (render engC2 (str "v") (.raw .vnil) []).1.templates (str "v")
      = some [(str "view::v", [Node.requireCall (str "missing")])] :=
  ⟨rfl, rfl⟩

/-- Any cache change made by the resolution step happens under exactly
the store conditions: either the cache is unchanged, or caching is on,
the key was absent, assembly succeeded, and the assembled set was
stored under the key. -/
theorem renderExec_cache (e : Engine) (view viewId layout layoutId : Str)
    (prts : List (Str × Str)) (key : Str) (data : Arg)
    (hdev : e.opt.Dev = false) :
    (renderExec e view viewId layout layoutId prts key data).1.templates
        = e.templates ∨
    (e.opt.Cache = true ∧ getA e.templates key = none ∧
      ∃ tpl, buildSet e view viewId layout layoutId prts = .ok tpl ∧
        (renderExec e view viewId layout layoutId prts key data).1.templates
          = setA e.templates key tpl) := by
  unfold renderExec
  cases hhit : getA e.templates key with
  | some t => exact Or.inl rfl
  | none =>
    cases hbuild : buildSet e view viewId layout layoutId prts with
    | error m => exact Or.inl rfl
    | ok tpl =>
      cases hc : e.opt.Cache with
      | false => left; simp [hdev]
      | true => exact Or.inr ⟨rfl, rfl, tpl, rfl, by simp [hdev]⟩

/-- On a cache miss with successful assembly, caching enabled and
development mode off, the resolution step stores the assembled set
under the key — before executing, hence independently of the
execution outcome. -/
theorem renderExec_store (e : Engine) (view viewId layout layoutId : Str)
    (prts : List (Str × Str)) (key : Str) (data : Arg) (tpl : TplSet)
    (hdev : e.opt.Dev = false) (hcache : e.opt.Cache = true)
    (hmiss : getA e.templates key = none)
    (hbuild : buildSet e view viewId layout layoutId prts = .ok tpl) :
    (renderExec e view viewId layout layoutId prts key data).1.templates
      = setA e.templates key tpl := by
  unfold renderExec
  rw [hmiss]
  dsimp only
  rw [hbuild]
  simp [hdev, hcache]

/-- The resolution step never changes the engine in development mode
(the store condition requires development mode off). -/
theorem renderExec_dev_unchanged (e : Engine) (view viewId layout layoutId : Str)
    (prts : List (Str × Str)) (key : Str) (data : Arg)
    (hdev : e.opt.Dev = true) :
    (renderExec e view viewId layout layoutId prts key data).1 = e := by
  unfold renderExec
  cases hhit : getA e.templates key with
  | some t => rfl
  | none =>
    cases hbuild : buildSet e view viewId layout layoutId prts with
    | error m => rfl
    | ok tpl => simp [hdev]

/-- In development mode the body of `Render` returns the engine
unchanged in every branch. -/
theorem renderCore_dev_unchanged (e : Engine) (name : Str) (data : Arg)
    (layouts : List Str) (hdev : e.opt.Dev = true) :
    (renderCore e name data layouts).1 = e := by
  unfold renderCore
  dsimp only
  cases hprx : e.partialRx with
  | none => exact renderExec_dev_unchanged e _ _ _ _ _ _ data hdev
  | some px =>
    obtain ⟨p, x⟩ := px
    dsimp only
    by_cases h1 : rxMatch p x (resolveView e.opt name).1 = true
    · simp [h1]
    · by_cases h2 : (!(resolveLayouts e.opt layouts).1.isEmpty
          && rxMatch p x (resolveLayouts e.opt layouts).1) = true
      · simp [h1, h2]
      · by_cases h3 : ((resolveLayouts e.opt layouts).2.2).any
            (fun pr => rxMatch p x pr.1) = true
        · simp [h1, h2, h3]
        · rw [if_neg h1, if_neg h2, if_neg h3]
          exact renderExec_dev_unchanged e _ _ _ _ _ _ data hdev

/-- The body of `Render` stores the assembled set when the partial
checks pass, the key is absent, assembly succeeds, caching is enabled
and development mode is off. -/
theorem renderCore_store (e : Engine) (name : Str) (data : Arg)
    (layouts : List Str) (tpl : TplSet)
    (hdev : e.opt.Dev = false) (hcache : e.opt.Cache = true)
    (hchecks : e.partialRx = none ∨
      ∃ p x, e.partialRx = some (p, x) ∧
        rxMatch p x (resolveView e.opt name).1 = false ∧
        ((resolveLayouts e.opt layouts).1 = [] ∨
          rxMatch p x (resolveLayouts e.opt layouts).1 = false) ∧
        ((resolveLayouts e.opt layouts).2.2).any
          (fun pr => rxMatch p x pr.1) = false)
    (hmiss : getA e.templates (renderKey e.opt name layouts) = none)
    (hasm : assembleFor e name layouts = .ok tpl) :
    (renderCore e name data layouts).1.templates
      = setA e.templates (renderKey e.opt name layouts) tpl := by
  have hbuild : buildSet e (resolveView e.opt name).1 (resolveView e.opt name).2
      (resolveLayouts e.opt layouts).1 (resolveLayouts e.opt layouts).2.1
      (resolveLayouts e.opt layouts).2.2 = .ok tpl := hasm
  unfold renderCore
  dsimp only
  rcases hchecks with hnone | ⟨p, x, hprx, h1, h2, h3⟩
  · rw [hnone]
    exact renderExec_store e _ _ _ _ _ _ data tpl hdev hcache hmiss hbuild
  · rw [hprx]
    dsimp only
    rw [if_neg (by simp [h1])]
    have h2b : (!(resolveLayouts e.opt layouts).1.isEmpty
        && rxMatch p x (resolveLayouts e.opt layouts).1) = false := by
      rcases h2 with h | h <;> simp [h]
    rw [if_neg (by simp [h2b])]
    rw [if_neg (by simp [h3])]
    exact renderExec_store e _ _ _ _ _ _ data tpl hdev hcache hmiss hbuild

/-- C2 (amended): `Render` stores the assembled template set in the
cache under the composite key exactly when the pre-assembly partial
checks pass, the key was absent, assembly fully succeeded, the cache
flag is enabled and development mode is off.  First conjunct: under
those conditions the store happens, and — since it precedes execution,
the conclusion being independent of the execution outcome — the set
remains cached under the key even when the render subsequently fails
during execution.  Second conjunct: with development mode off, every
render either leaves the cache unchanged or performed exactly that
store, so nothing is cached when assembly or a pre-assembly check
fails.  Third conjunct: a development-mode render always leaves the
cache empty (the implicit reload clears it and nothing is stored).
Fourth conjunct: a `Render` that hits the cache never touches the
filesystem, so a second render of the same triple behaves identically
even if the underlying files were deleted between the calls. -/
theorem claim_c2_amended :
    (∀ (e : Engine) (name : Str) (data : Arg) (layouts : List Str) (tpl : TplSet),
      e.opt.Dev = false →
      e.opt.Cache = true →
      (e.partialRx = none ∨
        ∃ p x, e.partialRx = some (p, x) ∧
          rxMatch p x (resolveView e.opt name).1 = false ∧
          ((resolveLayouts e.opt layouts).1 = [] ∨
            rxMatch p x (resolveLayouts e.opt layouts).1 = false) ∧
          ((resolveLayouts e.opt layouts).2.2).any
            (fun pr => rxMatch p x pr.1) = false) →
      getA e.templates (renderKey e.opt name layouts) = none →
      assembleFor e name layouts = .ok tpl →
      (render e name data layouts).1.templates
          = setA e.templates (renderKey e.opt name layouts) tpl ∧
        getA (render e name data layouts).1.templates
          (renderKey e.opt name layouts) = some tpl) ∧
    (∀ (e : Engine) (name : Str) (data : Arg) (layouts : List Str),
      e.opt.Dev = false →
      ((render e name data layouts).1.templates = e.templates ∨
        (e.opt.Cache = true ∧
          getA e.templates (renderKey e.opt name layouts) = none ∧
          ∃ tpl, assembleFor e name layouts = .ok tpl ∧
            (render e name data layouts).1.templates
              = setA e.templates (renderKey e.opt name layouts) tpl))) ∧
    (∀ (e : Engine) (name : Str) (data : Arg) (layouts : List Str),
      e.opt.Dev = true →
      (render e name data layouts).1.templates = []) ∧
    (∀ (e : Engine) (name : Str) (data : Arg) (layouts : List Str)
      (tpl : TplSet) (fs2 : FlexFS),
      e.opt.Dev = false →
      getA e.templates (renderKey e.opt name layouts) = some tpl →
      (render { e with fsrc := fs2 } name data layouts).2
        = (render e name data layouts).2) := by
  refine ⟨?_, ?_, ?_, ?_⟩
  · intro e name data layouts tpl hdev hcache hchecks hmiss hasm
    have hmain : (render e name data layouts).1.templates
        = setA e.templates (renderKey e.opt name layouts) tpl := by
      unfold render
      rw [hdev]
      simp only [Bool.false_eq_true, if_false]
      exact renderCore_store e name data layouts tpl hdev hcache hchecks hmiss hasm
    exact ⟨hmain, by rw [hmain]; exact getA_setA e.templates _ tpl⟩
  · intro e name data layouts hdev
    unfold render
    rw [hdev]
    simp only [Bool.false_eq_true, if_false]
    unfold renderCore
    dsimp only
    have hexec := renderExec_cache e (resolveView e.opt name).1
      (resolveView e.opt name).2 (resolveLayouts e.opt layouts).1
      (resolveLayouts e.opt layouts).2.1 (resolveLayouts e.opt layouts).2.2
      (renderKey e.opt name layouts) data hdev
    cases hprx : e.partialRx with
    | none => exact hexec
    | some px =>
      obtain ⟨p, x⟩ := px
      dsimp only
      by_cases h1 : rxMatch p x (resolveView e.opt name).1 = true
      · simp [h1]
      · by_cases h2 : (!(resolveLayouts e.opt layouts).1.isEmpty
            && rxMatch p x (resolveLayouts e.opt layouts).1) = true
        · simp [h1, h2]
        · by_cases h3 : ((resolveLayouts e.opt layouts).2.2).any
              (fun pr => rxMatch p x pr.1) = true
          · simp [h1, h2, h3]
          · rw [if_neg h1, if_neg h2, if_neg h3]
            exact hexec
  · intro e name data layouts hdev
    unfold render
    rw [if_pos hdev]
    cases hload : load e with
    | mk e1 res =>
      have he1 : e1.templates = [] := by
        have h0 := load_templates e
        rw [hload] at h0
        exact h0
      have hdev1 : e1.opt.Dev = true := by
        have h0 := load_opt e
        rw [hload] at h0
        rw [h0]
        exact hdev
      cases res with
      | some m => exact he1
      | none =>
        rw [renderCore_dev_unchanged e1 name data layouts hdev1]
        exact he1
  · intro e name data layouts tpl fs2 hdev hhit
    unfold render renderCore renderExec
    dsimp only
    rw [hdev]
    simp only [Bool.false_eq_true, if_false]
    rw [hhit]
    cases hprx : e.partialRx with
    | none => rfl
    | some px =>
      obtain ⟨p, x⟩ := px
      dsimp only
      by_cases h1 : rxMatch p x (resolveView e.opt name).1 = true
      · simp [h1]
      · by_cases h2 : (!(resolveLayouts e.opt layouts).1.isEmpty
            && rxMatch p x (resolveLayouts e.opt layouts).1) = true
        · simp [h1, h2]
        · by_cases h3 : ((resolveLayouts e.opt layouts).2.2).any
              (fun pr => rxMatch p x pr.1) = true
          · simp [h1, h2, h3]
          · simp only [if_neg h1, if_neg h2, if_neg h3]

/-- Witness for C2 (amended): the concrete render of `v` (whose
execution fails) stores — and thereafter holds — the assembled set
under the key, and after that render, deleting every file leaves a
repeat render's outcome unchanged. -/
theorem claim_c2_amended_witness :
    ((render engC2 (str "v") (.raw .vnil) []).1.templates
        = setA engC2.templates (renderKey engC2.opt (str "v") [])
            [(str "view::v", [Node.requireCall (str "missing")])] ∧
      getA (render engC2 (str "v") (.raw .vnil) []).1.templates
          (renderKey engC2.opt (str "v") [])
        = some [(str "view::v", [Node.requireCall (str "missing")])]) ∧
    (render { engC2b with fsrc := fsNone } (str "v") (.raw .vnil) []).2
      = (render engC2b (str "v") (.raw .vnil) []).2 :=
  ⟨claim_c2_amended.1 engC2 (str "v") (.raw .vnil) []
      [(str "view::v", [Node.requireCall (str "missing")])]
      rfl rfl (Or.inl rfl) rfl rfl,
    claim_c2_amended.2.2.2 engC2b (str "v") (.raw .vnil) []
      [(str "view::v", [Node.requireCall (str "missing")])] fsNone rfl rfl⟩

/-- Every branch of the partial-rejection check of `renderCore` errors
when the view path, the layout path, or a per-call partial path matches
the compiled matcher. -/
theorem renderCore_partial_reject (e : Engine) (name : Str) (data : Arg)
    (layouts : List Str) (p x : Str)
    (hprx : e.partialRx = some (p, x))
    (hmatch : rxMatch p x (resolveView e.opt name).1 = true ∨
      ((resolveLayouts e.opt layouts).1 ≠ [] ∧
        rxMatch p x (resolveLayouts e.opt layouts).1 = true) ∨
      ((resolveLayouts e.opt layouts).2.2).any (fun pr => rxMatch p x pr.1) = true) :
    ∃ m, (renderCore e name data layouts).2 = .error m := by
  unfold renderCore
  dsimp only
  rw [hprx]
  dsimp only
  by_cases h1 : rxMatch p x (resolveView e.opt name).1 = true
  · rw [if_pos h1]; exact ⟨_, rfl⟩
  · by_cases h2 : (!(resolveLayouts e.opt layouts).1.isEmpty
        && rxMatch p x (resolveLayouts e.opt layouts).1) = true
    · rw [if_neg h1, if_pos h2]; exact ⟨_, rfl⟩
    · by_cases h3 : ((resolveLayouts e.opt layouts).2.2).any
          (fun pr => rxMatch p x pr.1) = true
      · rw [if_neg h1, if_neg h2, if_pos h3]; exact ⟨_, rfl⟩
      · exfalso
        rcases hmatch with h | ⟨hne, hl⟩ | h
        · exact h1 h
        · exact h2 (by simp [hl, hne])
        · exact h3 h

/-- C3: when a partials directory is configured (and its matcher is
compiled), `Render` returns an error — writing nothing — whenever the
resolved view path, the resolved layout path, or any resolved per-call
partial path matches the partials matcher; a file classified as a
partial can never be rendered directly as the top-level view or
layout.  (In development mode the conclusion also covers a failing
reload, which likewise errors before writing.) -/
theorem claim_c3 : ∀ (e : Engine) (name : Str) (data : Arg) (layouts : List Str),
    e.opt.partials ≠ [] →
    e.partialRx = some (e.opt.partials, e.opt.extension) →
    (rxMatch e.opt.partials e.opt.extension (resolveView e.opt name).1 = true ∨
      ((resolveLayouts e.opt layouts).1 ≠ [] ∧
        rxMatch e.opt.partials e.opt.extension (resolveLayouts e.opt layouts).1 = true) ∨
      ((resolveLayouts e.opt layouts).2.2).any
        (fun pr => rxMatch e.opt.partials e.opt.extension pr.1) = true) →
    ∃ m, (render e name data layouts).2 = .error m := by
  intro e name data layouts hp hprx hmatch
  unfold render
  by_cases hdev : e.opt.Dev = true
  · rw [if_pos hdev]
    cases hload : load e with
    | mk e1 res =>
      cases res with
      | some m => exact ⟨m, rfl⟩
      | none =>
        have hopt : e1.opt = e.opt := by
          have h0 := load_opt e; rw [hload] at h0; exact h0
        have hrx : e1.partialRx = some (e.opt.partials, e.opt.extension) := by
          have h0 := load_partialRx e hp; rw [hload] at h0; exact h0
        rw [← hopt] at hmatch hrx
        exact renderCore_partial_reject e1 name data layouts _ _ hrx hmatch
  · rw [if_neg hdev]
    exact renderCore_partial_reject e name data layouts _ _ hprx hmatch

/-- Witness for C3: rendering the partial file `partials/bad` directly
as the view errors. -/
theorem claim_c3_witness :
    ∃ m, (render engC9 (str "partials/bad") (.raw .vnil) []).2 = .error m :=
  claim_c3 engC9 (str "partials/bad") (.raw .vnil) [] (by decide) rfl
    (Or.inl (by decide))

/-- One successful execution step from a cons list implies the tail
also executed successfully (on one less fuel). -/
theorem execNodes_cons_ok (ts : TplSet) (f : Nat) (bound : Option Str) (d : Val)
    (n : Node) (rest : List Node) (s : Str)
    (h : execNodes ts (f + 1) bound d (n :: rest) = .ok s) :
    ∃ t, execNodes ts f bound d rest = .ok t := by
  unfold execNodes at h
  dsimp only at h
  split at h
  · exact absurd h (by simp)
  · split at h
    · exact absurd h (by simp)
    · rename_i t heq
      exact ⟨t, heq⟩

/-- Executing any node list that contains a `view` invocation with no
child-view buffer bound never succeeds. -/
theorem execNodes_viewCall_mem (ts : TplSet) : ∀ (fuel : Nat) (d : Val)
    (nodes : List Node), Node.viewCall ∈ nodes →
    ∀ s, execNodes ts fuel none d nodes ≠ .ok s := by
  intro fuel
  induction fuel with
  | zero => intro d nodes _ s h; simp [execNodes] at h
  | succ f ih =>
    intro d nodes hmem s h
    cases nodes with
    | nil => simp at hmem
    | cons n rest =>
      rcases List.mem_cons.mp hmem with hn | hn
      · subst hn
        unfold execNodes at h
        simp [viewFn] at h
      · obtain ⟨t, ht⟩ := execNodes_cons_ok ts f none d n rest s h
        exact ih d rest hn t ht

/-- The execution stage of a `Render` whose set's view template
contains a `view` invocation errors when no layout wraps the render. -/
theorem renderCore_view_err (e : Engine) (name : Str) (data : Arg)
    (layouts : List Str) (ts : TplSet) (t : Template)
    (hlay : (resolveLayouts e.opt layouts).1 = [])
    (hset : setFor e name layouts = .ok ts)
    (hlook : lookupTpl ts (str "view::" ++ (resolveView e.opt name).2) = some t)
    (hmem : Node.viewCall ∈ t) :
    ∃ m, (renderCore e name data layouts).2 = .error m := by
  have hrun : ∀ s, runTpl ts (resolveView e.opt name).2
      (resolveLayouts e.opt layouts).1 (resolveLayouts e.opt layouts).2.1 data
        ≠ .ok s := by
    intro s
    unfold runTpl
    rw [if_pos hlay]
    unfold execNamed
    rw [hlook]
    exact execNodes_viewCall_mem ts execFuel (underlyingValue data) t hmem s
  have hexec : ∃ m, (renderExec e (resolveView e.opt name).1
      (resolveView e.opt name).2 (resolveLayouts e.opt layouts).1
      (resolveLayouts e.opt layouts).2.1 (resolveLayouts e.opt layouts).2.2
      (renderKey e.opt name layouts) data).2 = .error m := by
    unfold renderExec
    cases hhit : getA e.templates (renderKey e.opt name layouts) with
    | some tpl =>
      have hts : tpl = ts := by
        unfold setFor at hset
        rw [hhit] at hset
        dsimp only at hset
        injection hset
      subst hts
      dsimp only
      cases hres : runTpl tpl (resolveView e.opt name).2
          (resolveLayouts e.opt layouts).1 (resolveLayouts e.opt layouts).2.1 data with
      | error m => exact ⟨m, rfl⟩
      | ok s => exact absurd hres (hrun s)
    | none =>
      have hasm : assembleFor e name layouts = .ok ts := by
        unfold setFor at hset
        rw [hhit] at hset
        exact hset
      cases hbuild : buildSet e (resolveView e.opt name).1 (resolveView e.opt name).2
          (resolveLayouts e.opt layouts).1 (resolveLayouts e.opt layouts).2.1
          (resolveLayouts e.opt layouts).2.2 with
      | error m => exact ⟨m, rfl⟩
      | ok tpl =>
        have hb2 : assembleFor e name layouts = .ok tpl := hbuild
        rw [hasm] at hb2
        have hts : ts = tpl := by injection hb2
        subst hts
        dsimp only
        cases hres : runTpl ts (resolveView e.opt name).2
            (resolveLayouts e.opt layouts).1 (resolveLayouts e.opt layouts).2.1 data with
        | error m => exact ⟨m, rfl⟩
        | ok s => exact absurd hres (hrun s)
  unfold renderCore
  dsimp only
  cases hprx : e.partialRx with
  | none => exact hexec
  | some px =>
    obtain ⟨p, x⟩ := px
    dsimp only
    by_cases h1 : rxMatch p x (resolveView e.opt name).1 = true
    · rw [if_pos h1]; exact ⟨_, rfl⟩
    · by_cases h2 : (!(resolveLayouts e.opt layouts).1.isEmpty
          && rxMatch p x (resolveLayouts e.opt layouts).1) = true
      · rw [if_neg h1, if_pos h2]; exact ⟨_, rfl⟩
      · by_cases h3 : ((resolveLayouts e.opt layouts).2.2).any
            (fun pr => rxMatch p x pr.1) = true
        · rw [if_neg h1, if_neg h2, if_pos h3]; exact ⟨_, rfl⟩
        · rw [if_neg h1, if_neg h2, if_neg h3]
          exact hexec

/-- C6: a template that invokes the `view` function during a render in
which no child-view buffer was bound fails with an explicit error
instead of producing empty output: executing any node list containing
the invocation with no bound buffer never succeeds (first conjunct),
and a `Render` without a layout whose view template contains the
invocation returns an error (second conjunct). -/
theorem claim_c6 :
    (∀ (ts : TplSet) (fuel : Nat) (d : Val) (nodes : List Node),
      Node.viewCall ∈ nodes → ∀ s, execNodes ts fuel none d nodes ≠ .ok s) ∧
    (∀ (e : Engine) (name : Str) (data : Arg) (layouts : List Str)
      (ts : TplSet) (t : Template),
      e.opt.Dev = false →
      (resolveLayouts e.opt layouts).1 = [] →
      setFor e name layouts = .ok ts →
      lookupTpl ts (str "view::" ++ (resolveView e.opt name).2) = some t →
      Node.viewCall ∈ t →
      ∃ m, (render e name data layouts).2 = .error m) := by
  constructor
  · exact fun ts fuel d nodes hmem => execNodes_viewCall_mem ts fuel d nodes hmem
  · intro e name data layouts ts t hdev hlay hset hlook hmem
    unfold render
    rw [hdev]
    simp only [Bool.false_eq_true, if_false]
    exact renderCore_view_err e name data layouts ts t hlay hset hlook hmem

/-- Witness for C6: the view `v` consisting of a lone `view` invocation
rendered without layout errors. -/
theorem claim_c6_witness :
    ∃ m, (render engC6 (str "v") (.raw .vnil) []).2 = .error m :=
  claim_c6.2 engC6 (str "v") (.raw .vnil) []
    [(str "view::v", [Node.viewCall])] [Node.viewCall]
    rfl (by decide) rfl rfl (by decide)

/-! Lemmas about splitting, joining and cleaning slash-separated
paths, used to settle the `toName`/`toPath` roundtrip. -/

theorem splitSegs_ne_nil (s : Str) : splitSegs s ≠ [] := by
  cases s with
  | nil => simp [splitSegs]
  | cons c rest =>
    unfold splitSegs
    split
    · simp
    · split <;> simp

theorem splitSegs_cons (c : Char) (rest : Str) (h : Str) (t : List Str)
    (heq : splitSegs rest = h :: t) :
    splitSegs (c :: rest) = if c = '/' then [] :: h :: t else (c :: h) :: t := by
  conv_lhs => rw [splitSegs]
  rw [heq]

theorem splitSegs_dest (b : Str) : ∃ h t, splitSegs b = h :: t := by
  cases hsb : splitSegs b with
  | nil => exact absurd hsb (splitSegs_ne_nil b)
  | cons h t => exact ⟨h, t, rfl⟩

theorem splitSegs_slash_cons (b : Str) : splitSegs ('/' :: b) = [] :: splitSegs b := by
  obtain ⟨h, t, heq⟩ := splitSegs_dest b
  rw [splitSegs_cons '/' b h t heq, if_pos rfl, heq]

theorem splitSegs_append (a b : Str) :
    splitSegs (a ++ '/' :: b) = splitSegs a ++ splitSegs b := by
  induction a with
  | nil =>
    rw [List.nil_append, splitSegs_slash_cons]
    rfl
  | cons c a2 ih =>
    obtain ⟨h, t, heq⟩ := splitSegs_dest a2
    rw [List.cons_append]
    rw [splitSegs_cons c (a2 ++ '/' :: b) h (t ++ splitSegs b)
      (by rw [ih, heq]; rfl)]
    rw [splitSegs_cons c a2 h t heq]
    by_cases hc : c = '/'
    · rw [if_pos hc, if_pos hc]
      simp
    · rw [if_neg hc, if_neg hc]
      simp

theorem splitSegs_noslash (s : Str) (h : '/' ∉ s) : splitSegs s = [s] := by
  induction s with
  | nil => rfl
  | cons c rest ih =>
    have hc : c ≠ '/' := fun hx => h (hx ▸ List.mem_cons_self c rest)
    have hr : '/' ∉ rest := fun hx => h (List.mem_cons_of_mem c hx)
    rw [splitSegs_cons c rest rest [] (ih hr), if_neg hc]

theorem joinWith_cons (sep : Char) (x : Str) (l : List Str) (h : l ≠ []) :
    joinWith sep (x :: l) = x ++ sep :: joinWith sep l := by
  cases l with
  | nil => exact absurd rfl h
  | cons y t => rfl

theorem splitSegs_join (segs : List Str) (hne : segs ≠ [])
    (h : ∀ s ∈ segs, '/' ∉ s) : splitSegs (joinSegs segs) = segs := by
  induction segs with
  | nil => exact absurd rfl hne
  | cons s t ih =>
    cases t with
    | nil =>
      exact splitSegs_noslash s (h s (List.mem_cons_self s []))
    | cons u v =>
      have ht : u :: v ≠ [] := by simp
      rw [joinSegs, joinWith_cons '/' s (u :: v) ht, splitSegs_append,
        splitSegs_noslash s (h s (List.mem_cons_self s (u :: v)))]
      rw [show joinWith '/' (u :: v) = joinSegs (u :: v) from rfl]
      rw [ih ht (fun x hx => h x (List.mem_cons_of_mem s hx))]
      rfl

theorem joinSegs_append (xs ys : List Str) (hx : xs ≠ []) (hy : ys ≠ []) :
    joinSegs (xs ++ ys) = joinSegs xs ++ '/' :: joinSegs ys := by
  induction xs with
  | nil => exact absurd rfl hx
  | cons x t ih =>
    cases t with
    | nil =>
      rw [List.singleton_append, joinSegs, joinWith_cons '/' x ys hy]
      rfl
    | cons u v =>
      have ht : u :: v ≠ [] := by simp
      have htys : (u :: v) ++ ys ≠ [] := by simp
      rw [List.cons_append]
      rw [show joinSegs (x :: ((u :: v) ++ ys))
          = x ++ '/' :: joinSegs ((u :: v) ++ ys) from
        joinWith_cons '/' x ((u :: v) ++ ys) htys]
      rw [ih ht]
      rw [show joinSegs (x :: u :: v) = x ++ '/' :: joinSegs (u :: v) from
        joinWith_cons '/' x (u :: v) ht]
      simp [List.append_assoc]

theorem foldl_cleanStep (r : Bool) (segs : List Str)
    (h : ∀ s ∈ segs, s = [] ∨ simpleSeg s) :
    ∀ acc, List.foldl (cleanStep r) acc segs
      = acc ++ segs.filter (fun s => !s.isEmpty) := by
  induction segs with
  | nil => intro acc; simp
  | cons s t ih =>
    intro acc
    rcases h s (List.mem_cons_self s t) with hs | hs
    · subst hs
      rw [List.foldl_cons]
      have hstep : cleanStep r acc [] = acc := by simp [cleanStep]
      rw [hstep, ih (fun x hx => h x (List.mem_cons_of_mem _ hx)) acc]
      simp [List.filter_cons]
    · obtain ⟨h1, h2, h3, _⟩ := hs
      rw [List.foldl_cons]
      have hstep : cleanStep r acc s = acc ++ [s] := by
        simp [cleanStep, h1, h2, h3]
      rw [hstep, ih (fun x hx => h x (List.mem_cons_of_mem _ hx)) (acc ++ [s])]
      simp [List.filter_cons, h1]

theorem isRooted_append (a y : Str) (ha : a ≠ []) :
    isRooted (a ++ y) = isRooted a := by
  cases a with
  | nil => exact absurd rfl ha
  | cons c t => rfl

theorem isRooted_join (segs : List Str) (hne : segs ≠ [])
    (h : ∀ s ∈ segs, simpleSeg s) : isRooted (joinSegs segs) = false := by
  cases segs with
  | nil => exact absurd rfl hne
  | cons s t =>
    obtain ⟨h1, _, _, h4⟩ := h s (List.mem_cons_self s t)
    cases s with
    | nil => exact absurd rfl h1
    | cons c cs =>
      have hc : c ≠ '/' := fun hx => h4 (hx ▸ List.mem_cons_self c cs)
      cases t with
      | nil => simp [joinSegs, joinWith, isRooted, hc]
      | cons u v =>
        rw [joinSegs, joinWith_cons '/' (c :: cs) (u :: v) (by simp)]
        simp [isRooted, hc]

theorem joinSegs_ne_nil (segs : List Str) (hne : segs ≠ [])
    (h : ∀ s ∈ segs, simpleSeg s) : joinSegs segs ≠ [] := by
  cases segs with
  | nil => exact absurd rfl hne
  | cons s t =>
    obtain ⟨h1, _, _, _⟩ := h s (List.mem_cons_self s t)
    cases t with
    | nil => simpa [joinSegs, joinWith] using h1
    | cons u v =>
      rw [joinSegs, joinWith_cons '/' s (u :: v) (by simp)]
      cases s with
      | nil => exact absurd rfl h1
      | cons c cs => simp

theorem goClean_joinSegs_simple (segs : List Str) (hne : segs ≠ [])
    (h : ∀ s ∈ segs, simpleSeg s) :
    goClean (joinSegs segs) = joinSegs segs := by
  have hslash : ∀ s ∈ segs, '/' ∉ s := fun s hs => (h s hs).2.2.2
  have hclean : cleanSegs false segs = segs := by
    unfold cleanSegs
    rw [foldl_cleanStep false segs (fun s hs => Or.inr (h s hs)) []]
    rw [List.nil_append]
    exact List.filter_eq_self.mpr
      (fun s hs => by
        have h1 := (h s hs).1
        cases s with
        | nil => exact absurd rfl h1
        | cons c cs => rfl)
  unfold goClean
  rw [isRooted_join segs hne h, splitSegs_join segs hne hslash]
  show (if false = true then '/' :: joinSegs (cleanSegs false segs)
    else if cleanSegs false segs = [] then ['.']
    else joinSegs (cleanSegs false segs)) = joinSegs segs
  rw [hclean]
  simp [hne]

theorem filter_simple (l : List Str) (h : ∀ s ∈ l, simpleSeg s) :
    l.filter (fun s => !s.isEmpty) = l :=
  List.filter_eq_self.mpr (fun s hs => by
    have h1 := (h s hs).1
    cases s with
    | nil => exact absurd rfl h1
    | cons c cs => rfl)

theorem extendLast_ne_nil (ext : Str) (segs : List Str) (h : segs ≠ []) :
    extendLast ext segs ≠ [] := by
  cases segs with
  | nil => exact absurd rfl h
  | cons s t => cases t <;> simp [extendLast]

theorem joinSegs_extendLast (ext : Str) (segs : List Str) (h : segs ≠ []) :
    joinSegs segs ++ ext = joinSegs (extendLast ext segs) := by
  induction segs with
  | nil => exact absurd rfl h
  | cons s t ih =>
    cases t with
    | nil => rfl
    | cons u v =>
      have ht : u :: v ≠ [] := by simp
      rw [show joinSegs (s :: u :: v) = s ++ '/' :: joinSegs (u :: v) from
        joinWith_cons '/' s (u :: v) ht]
      rw [show extendLast ext (s :: u :: v) = s :: extendLast ext (u :: v) from rfl]
      rw [show joinSegs (s :: extendLast ext (u :: v))
          = s ++ '/' :: joinSegs (extendLast ext (u :: v)) from
        joinWith_cons '/' s _ (extendLast_ne_nil ext (u :: v) ht)]
      rw [← ih ht]
      simp [List.append_assoc]

theorem append_simple (a ext : Str) (ha : simpleSeg a) (hext : ext ≠ [])
    (hsl : '/' ∉ ext) : simpleSeg (a ++ ext) := by
  obtain ⟨h1, h2, h3, h4⟩ := ha
  refine ⟨by simp [h1], ?_, ?_, ?_⟩
  · intro heq
    have hlen : a.length + ext.length = 1 := by
      have h0 := congrArg List.length heq
      rw [List.length_append] at h0
      exact h0
    have la : 1 ≤ a.length := List.length_pos.mpr h1
    have le : 1 ≤ ext.length := List.length_pos.mpr hext
    omega
  · intro heq
    cases a with
    | nil => exact absurd rfl h1
    | cons c cs =>
      cases cs with
      | nil =>
        simp only [List.cons_append, List.nil_append, List.cons.injEq] at heq
        exact h2 (by rw [heq.1])
      | cons c2 cs2 =>
        have h0 : (c :: c2 :: cs2).length + ext.length = 2 := by
          have h1 := congrArg List.length heq
          rw [List.length_append] at h1
          exact h1
        have le : 1 ≤ ext.length := List.length_pos.mpr hext
        simp only [List.length_cons] at h0
        omega
  · simp [List.mem_append, h4, hsl]

theorem extendLast_simple (ext : Str) (hext : ext ≠ []) (hsl : '/' ∉ ext) :
    ∀ (segs : List Str), (∀ s ∈ segs, simpleSeg s) →
    ∀ s ∈ extendLast ext segs, simpleSeg s := by
  intro segs
  induction segs with
  | nil => intro _ s hs; simp [extendLast] at hs
  | cons a t ih =>
    intro h s hs
    cases t with
    | nil =>
      simp only [extendLast, List.mem_singleton] at hs
      subst hs
      exact append_simple a ext (h a (List.mem_cons_self a [])) hext hsl
    | cons u v =>
      simp only [extendLast] at hs
      rcases List.mem_cons.mp hs with h1 | h1
      · subst h1; exact h s (List.mem_cons_self s (u :: v))
      · exact ih (fun x hx => h x (List.mem_cons_of_mem _ hx)) s h1

theorem toName_append (root stem ext : Str) (hne : root ++ (stem ++ ext) ≠ []) :
    toName (root ++ (stem ++ ext)) root ext = normalizePath [stem] := by
  unfold toName
  rw [if_neg hne]
  have htp : goTrimPre (root ++ (stem ++ ext)) root = stem ++ ext := by
    unfold goTrimPre
    rw [if_pos (by rw [List.isPrefixOf_iff_prefix]; exact List.prefix_append root _)]
    exact List.drop_left root _
  rw [htp]
  have hts : goTrimSuf (stem ++ ext) ext = stem := by
    unfold goTrimSuf
    rw [if_pos (by rw [List.isSuffixOf_iff_suffix]; exact List.suffix_append stem ext)]
    have hl : (stem ++ ext).length - ext.length = stem.length := by simp
    rw [hl]
    exact List.take_left stem ext
  rw [hts]

theorem normalizePath_single (stem : Str) (hne : stem ≠ [])
    (hclean : goClean stem = stem) : normalizePath [stem] = stem := by
  unfold normalizePath goJoin
  have hse : stem.isEmpty = false := by
    cases h0 : stem with
    | nil => exact absurd h0 hne
    | cons c cs => rfl
  simp [hse, joinSegs, joinWith, hclean]

theorem toPath_keep (stem root ext : Str) (hne : stem ≠ [])
    (hpre : root.isPrefixOf stem = false) (hsuf : ext.isSuffixOf stem = false) :
    toPath stem root ext = normalizePath [root, stem ++ ext] := by
  unfold toPath
  rw [if_neg hne]
  dsimp only
  have h1 : goTrimPre stem root = stem := by
    unfold goTrimPre
    rw [if_neg (by simp [hpre])]
  have h2 : goTrimSuf stem ext = stem := by
    unfold goTrimSuf
    rw [if_neg (by simp [hsuf])]
  rw [h1, h2]

theorem normalizePath_pair (a b : Str) (ha : a ≠ []) (hb : b ≠ []) :
    normalizePath [a, b] = goClean (goClean (a ++ '/' :: b)) := by
  unfold normalizePath goJoin
  have ha2 : a.isEmpty = false := by
    cases h0 : a with
    | nil => exact absurd h0 ha
    | cons c cs => rfl
  have hb2 : b.isEmpty = false := by
    cases h0 : b with
    | nil => exact absurd h0 hb
    | cons c cs => rfl
  simp [ha2, hb2, joinSegs, joinWith]

/-- C4 as universally stated is false on the code: the path
`views/views/x.tpl` lies under the root `views/` and carries the
extension `.tpl`, yet the roundtrip returns `views/x.tpl` because
`toPath` strips the root prefix from the derived name `views/x` again
before re-adding it. -/
theorem claim_c4_counterexample :
    (str "views/").isPrefixOf (str "views/views/x.tpl") = true ∧
    (str ".tpl").isSuffixOf (str "views/views/x.tpl") = true ∧
    toPath (toName (str "views/views/x.tpl") (str "views/") (str ".tpl"))
        (str "views/") (str ".tpl") ≠ str "views/views/x.tpl" := by
  refine ⟨by decide, by decide, by decide⟩

/-- C4 (amended): for every path `p = root ++ s ++ ext` under a
configured root of the form `<clean relative dir>/` whose relative stem
`s` is a clean relative path that does not itself start with the root
prefix and does not itself end with the extension,
`toPath (toName p root ext) root ext = p`. -/
theorem claim_c4_amended (rsegs ssegs : List Str) (ext : Str)
    (hrne : rsegs ≠ []) (hsne : ssegs ≠ [])
    (hr : ∀ s ∈ rsegs, simpleSeg s) (hs : ∀ s ∈ ssegs, simpleSeg s)
    (hext : ext ≠ []) (hextsl : '/' ∉ ext)
    (hpre : (joinSegs rsegs ++ ['/']).isPrefixOf (joinSegs ssegs) = false)
    (hsuf : ext.isSuffixOf (joinSegs ssegs) = false) :
    toPath (toName ((joinSegs rsegs ++ ['/']) ++ (joinSegs ssegs ++ ext))
        (joinSegs rsegs ++ ['/']) ext) (joinSegs rsegs ++ ['/']) ext
      = (joinSegs rsegs ++ ['/']) ++ (joinSegs ssegs ++ ext) := by
  have hstem_ne : joinSegs ssegs ≠ [] := joinSegs_ne_nil ssegs hsne hs
  have hclean_stem : goClean (joinSegs ssegs) = joinSegs ssegs :=
    goClean_joinSegs_simple ssegs hsne hs
  have hroot_ne : joinSegs rsegs ++ ['/'] ≠ [] := by simp
  have hp_ne : (joinSegs rsegs ++ ['/']) ++ (joinSegs ssegs ++ ext) ≠ [] := by
    simp
  have hBne : extendLast ext ssegs ≠ [] := extendLast_ne_nil ext ssegs hsne
  have hBsimple : ∀ s ∈ extendLast ext ssegs, simpleSeg s :=
    extendLast_simple ext hext hextsl ssegs hs
  have hB : joinSegs ssegs ++ ext = joinSegs (extendLast ext ssegs) :=
    joinSegs_extendLast ext ssegs hsne
  have hallne : rsegs ++ extendLast ext ssegs ≠ [] := by simp [hrne]
  have hall : ∀ s ∈ rsegs ++ extendLast ext ssegs, simpleSeg s := by
    intro s hs2
    rcases List.mem_append.mp hs2 with h0 | h0
    · exact hr s h0
    · exact hBsimple s h0
  have hjoinall : joinSegs (rsegs ++ extendLast ext ssegs)
      = joinSegs rsegs ++ '/' :: joinSegs (extendLast ext ssegs) :=
    joinSegs_append rsegs _ hrne hBne
  rw [toName_append _ _ _ hp_ne]
  rw [normalizePath_single _ hstem_ne hclean_stem]
  rw [toPath_keep _ _ _ hstem_ne hpre hsuf]
  rw [normalizePath_pair _ _ hroot_ne (by simp [hstem_ne])]
  have hform : (joinSegs rsegs ++ ['/']) ++ '/' :: (joinSegs ssegs ++ ext)
      = joinSegs rsegs ++ '/' :: ('/' :: (joinSegs ssegs ++ ext)) := by
    simp [List.append_assoc]
  have hclean1 : goClean ((joinSegs rsegs ++ ['/']) ++ '/' :: (joinSegs ssegs ++ ext))
      = joinSegs (rsegs ++ extendLast ext ssegs) := by
    rw [hform]
    unfold goClean
    rw [splitSegs_append (joinSegs rsegs) ('/' :: (joinSegs ssegs ++ ext))]
    rw [splitSegs_slash_cons (joinSegs ssegs ++ ext)]
    rw [hB]
    rw [splitSegs_join (extendLast ext ssegs) hBne
      (fun s h0 => (hBsimple s h0).2.2.2)]
    rw [splitSegs_join rsegs hrne (fun s h0 => (hr s h0).2.2.2)]
    rw [isRooted_append (joinSegs rsegs) _ (joinSegs_ne_nil rsegs hrne hr)]
    rw [isRooted_join rsegs hrne hr]
    have hcond : ∀ s ∈ rsegs ++ [] :: extendLast ext ssegs,
        s = [] ∨ simpleSeg s := by
      intro s h0
      rcases List.mem_append.mp h0 with h1 | h1
      · exact Or.inr (hr s h1)
      · rcases List.mem_cons.mp h1 with h2 | h2
        · exact Or.inl h2
        · exact Or.inr (hBsimple s h2)
    have hcl : cleanSegs false (rsegs ++ [] :: extendLast ext ssegs)
        = rsegs ++ extendLast ext ssegs := by
      unfold cleanSegs
      rw [foldl_cleanStep false _ hcond []]
      rw [List.nil_append, List.filter_append, filter_simple rsegs hr,
        List.filter_cons]
      simp [filter_simple _ hBsimple]
    show (if false = true
        then '/' :: joinSegs (cleanSegs false (rsegs ++ [] :: extendLast ext ssegs))
      else if cleanSegs false (rsegs ++ [] :: extendLast ext ssegs) = [] then ['.']
      else joinSegs (cleanSegs false (rsegs ++ [] :: extendLast ext ssegs)))
        = joinSegs (rsegs ++ extendLast ext ssegs)
    rw [hcl]
    simp [hallne]
  rw [hclean1]
  rw [goClean_joinSegs_simple _ hallne hall]
  rw [hjoinall, ← hB]
  simp [List.append_assoc]

/-- Witness for C4 (amended) at the configured root `views/`, stem
`pages/home` and extension `.tpl`. -/
theorem claim_c4_witness :
    toPath (toName (str "views/pages/home.tpl") (str "views/") (str ".tpl"))
        (str "views/") (str ".tpl") = str "views/pages/home.tpl" := by
  exact claim_c4_amended [str "views"] [str "pages", str "home"] (str ".tpl")
    (by decide) (by decide) (by decide) (by decide) (by decide) (by decide)
    (by decide) (by decide)

/-- C9: when the view and layout pass the partials matcher but some
per-call partial path matches it, the returned error message embeds the
layout path (possibly empty), not the offending partial path, before
the text `partial already loaded globally`. -/
theorem claim_c9 : ∀ (e : Engine) (name : Str) (data : Arg)
    (layouts : List Str) (p x : Str),
    e.opt.Dev = false →
    e.partialRx = some (p, x) →
    rxMatch p x (resolveView e.opt name).1 = false →
    ((resolveLayouts e.opt layouts).1 = [] ∨
      rxMatch p x (resolveLayouts e.opt layouts).1 = false) →
    ((resolveLayouts e.opt layouts).2.2).any (fun pr => rxMatch p x pr.1) = true →
    render e name data layouts
      = (e, .error ((resolveLayouts e.opt layouts).1
          ++ str " partial already loaded globally")) := by
  intro e name data layouts p x hdev hprx hview hlay hprt
  unfold render
  rw [hdev]
  simp only [Bool.false_eq_true, if_false]
  unfold renderCore
  dsimp only
  rw [hprx]
  dsimp only
  rw [hview]
  simp only [Bool.false_eq_true, if_false]
  have hlay2 : (!(resolveLayouts e.opt layouts).1.isEmpty
      && rxMatch p x (resolveLayouts e.opt layouts).1) = false := by
    rcases hlay with h | h
    · simp [h]
    · simp [h]
  rw [hlay2]
  simp only [Bool.false_eq_true, if_false]
  rw [hprt]
  simp

/-- Witness for C9: an empty layout slot plus one offending per-call
partial yields the message with the empty layout path embedded (and
not the partial path). -/
theorem claim_c9_witness :
    render engC9 (str "home") (.raw .vnil) [[], str "partials/x"]
      = (engC9, .error (str " partial already loaded globally")) := by
  have h := claim_c9 engC9 (str "home") (.raw .vnil) [[], str "partials/x"]
    (str "views/partials/") (str ".tpl") rfl rfl (by decide)
    (Or.inl (by decide)) (by decide)
  exact h

end GoTpl
